import Mathlib

/-!
Verification of the pixie-trap sprite/hitbox editor.

This file gives a shallow embedding of the geometry and interaction engine of
the pixie-trap repository (the `src/pixie_trap` variant, the most complete
evolutionary snapshot, supplemented by the older `src/canvas.py` and
`src/src/primitives.py` snapshots where the claims cite them) and proves or
refutes the frozen claims about it.

Conventions of the embedding:

* Python integers are `ℤ`; Python floats that hold exact small rationals
  (the magnification factor, intermediate pan arithmetic) are `ℚ`.
* Python `int(q)` (truncation toward zero) is `pyInt`.
* Python `//` (floor division) on `ℚ` is `⌊· / ·⌋`; on nonnegative integers
  with a positive divisor it agrees with Lean's `Int` division (`ediv`),
  which is what we use where the source only ever divides nonnegative sizes.
* Python `dict` insertion (replace the value in place when the key exists,
  append otherwise) is `dictInsert`; building a dict by iterating key/value
  pairs is `dictOf`.
-/

namespace PixieTrap

/-- Truncation toward zero, the behaviour of Python `int()` on a float/rational. -/
def pyInt (q : ℚ) : ℤ := if 0 ≤ q then ⌊q⌋ else ⌈q⌉

/-- A point, from `src/pixie_trap/primitives.py`, class `Point` (fields `x`, `y`). -/
structure Point where
  x : ℤ
  y : ℤ
deriving DecidableEq, Repr

/-- An axis-aligned rectangle, from `src/pixie_trap/primitives.py`, class `Rect`
(fields `x`, `y`, `w`, `h`; the top-left corner is `(x, y)`). -/
structure Rect where
  x : ℤ
  y : ℤ
  w : ℤ
  h : ℤ
deriving DecidableEq, Repr

/-- Embedding of `Rect.contains` from `src/pixie_trap/primitives.py` (also `Rect.Contains` in
`src/primitives.py` and `src/src/primitives.py`, which are textually the same test):
`x_in = self.x <= point.x <= self.x + self.w`, `y_in` likewise, `return x_in and y_in`. -/
def Rect.contains (r : Rect) (p : Point) : Bool :=
  (decide (r.x ≤ p.x ∧ p.x ≤ r.x + r.w)) && (decide (r.y ≤ p.y ∧ p.y ≤ r.y + r.h))

/-- The eight scaling directions, from `Scale` in `src/pixie_trap/constants.py`. -/
inductive Scale where
  | top
  | left
  | right
  | bottom
  | top_left
  | top_right
  | bottom_left
  | bottom_right
deriving DecidableEq, Repr

/-- Embedding of `Rect.scale` from `src/pixie_trap/primitives.py` lines 92-139 (identical to
`Rect.Scale` in `src/src/primitives.py` lines 24-58): each edge direction moves one
edge, each corner direction moves two. -/
def Rect.scale (r : Rect) (s : Scale) (dx dy : ℤ) : Rect :=
  match s with
  | .top => { r with y := r.y + dy, h := r.h - dy }
  | .left => { r with x := r.x + dx, w := r.w - dx }
  | .right => { r with w := r.w + dx }
  | .bottom => { r with h := r.h + dy }
  | .top_left => { r with x := r.x + dx, y := r.y + dy, w := r.w - dx, h := r.h - dy }
  | .top_right => { r with y := r.y + dy, w := r.w + dx, h := r.h - dy }
  | .bottom_left => { r with x := r.x + dx, w := r.w - dx, h := r.h + dy }
  | .bottom_right => { r with w := r.w + dx, h := r.h + dy }

/-- Embedding of `Rect.centre` from `src/pixie_trap/primitives.py`: `Point(x=self.x + self.w/2,
y=self.y + self.h/2)`, where `Point.set` wraps both coordinates in Python `int()`. -/
def Rect.centre (r : Rect) : Point :=
  ⟨pyInt ((r.x : ℚ) + (r.w : ℚ) / 2), pyInt ((r.y : ℚ) + (r.h : ℚ) / 2)⟩

/-- Embedding of `ScaleRects.set` from `src/pixie_trap/primitives.py` lines 375-466: the eight
scaling pins, each a square of side `diametre = 2 * radius`, centred on the
midpoints of the four edges and on the four corners of `rect`.  The method takes
no magnification argument: the pin footprint is `2 * radius` in the same
coordinate space as `rect` regardless of the zoom level. -/
def scaleRectsSet (rect : Rect) (radius : ℤ) : Scale → Rect
  | .top => ⟨rect.centre.x - radius, rect.y - radius, 2 * radius, 2 * radius⟩
  | .left => ⟨rect.x - radius, rect.centre.y - radius, 2 * radius, 2 * radius⟩
  | .right => ⟨rect.x + rect.w - radius, rect.centre.y - radius, 2 * radius, 2 * radius⟩
  | .bottom => ⟨rect.centre.x - radius, rect.y + rect.h - radius, 2 * radius, 2 * radius⟩
  | .top_left => ⟨rect.x - radius, rect.y - radius, 2 * radius, 2 * radius⟩
  | .top_right => ⟨rect.x + rect.w - radius, rect.y - radius, 2 * radius, 2 * radius⟩
  | .bottom_left => ⟨rect.x - radius, rect.y + rect.h - radius, 2 * radius, 2 * radius⟩
  | .bottom_right => ⟨rect.x + rect.w - radius, rect.y + rect.h - radius, 2 * radius, 2 * radius⟩

/-- Evenly spaced ruler values `i*s, (i+1)*s, ..., (i+count-1)*s`. -/
def rulersFrom : ℕ → ℕ → ℤ → List ℤ
  | _, 0, _ => []
  | i, Nat.succ m, s => (i : ℤ) * s :: rulersFrom (i + 1) m s

/-- The ruler positions computed by `Canvas.FindSelectionZone` in
`src/pixie_trap/canvas.py` lines 164-169: `np.arange(start=0, stop=total+1,
step=step)`, which for `step ≥ 1` is the list of the `⌊total/step⌋ + 1`
multiples of `step` lying in `[0, total]`. -/
def rulers (total step : ℤ) : List ℤ :=
  rulersFrom 0 ((total.fdiv step).toNat + 1) step

/-- The two indicator-weighted sums of `Canvas.FindSelectionZone` lines 172-179:
over the adjacent ruler pairs `(rulers[:-1], rulers[1:])`, the sum of the lower
bounds of the pairs containing `x` and the sum of the corresponding upper
bounds (`np.sum(x_in * vrulers[:-1])` and `np.sum(x_in * vrulers[1:])`). -/
def pairSum : List ℤ → ℤ → ℤ × ℤ
  | lo :: hi :: rest, x =>
      let p := pairSum (hi :: rest) x
      (p.1 + if lo ≤ x ∧ x < hi then lo else 0,
       p.2 + if lo ≤ x ∧ x < hi then hi else 0)
  | _, _ => (0, 0)

/-- Embedding of `Canvas.FindSelectionZone` from `src/pixie_trap/canvas.py` lines 133-181,
after the view-to-document transform of the mouse position (lines 159-160):
given a document-space point `(x, y)`, a sheet of size `w × h` and grid counts
`rows`/`cols`, returns `(rect_x, rect_y, rect_w, rect_h)`. -/
def findSelectionZone (x y w h rows cols : ℤ) : ℤ × ℤ × ℤ × ℤ :=
  let vx := pairSum (rulers w (w.fdiv cols)) x
  let vy := pairSum (rulers h (h.fdiv rows)) y
  (vx.1, vy.1, vx.2 - vx.1, vy.2 - vy.1)

/-- The full `Canvas.FindSelectionZone` including the initial view-to-document
transform `x = (x - self.sheet_pos.x) // self.magnify_factor` (floor division
by the float magnification factor). -/
def findSelectionZoneView (vx vy panX panY : ℤ) (m : ℚ) (w h rows cols : ℤ) :
    ℤ × ℤ × ℤ × ℤ :=
  findSelectionZone (⌊((vx - panX : ℤ) : ℚ) / m⌋) (⌊((vy - panY : ℤ) : ℚ) / m⌋) w h rows cols

/-- One zoom-in step on the `magnify` state variable, from
`Canvas.onMouseWheel` in `src/pixie_trap/canvas.py` lines 961-965:
`self.magnify += 1; if self.magnify == -1: self.magnify += 2`. -/
def zoomIn (m : ℤ) : ℤ :=
  if m + 1 = -1 then m + 3 else m + 1

/-- One zoom-out step on the `magnify` state variable, from
`Canvas.onMouseWheel` in `src/pixie_trap/canvas.py` lines 967-971:
`self.magnify -= 1; if self.magnify == 0: self.magnify -= 2`. -/
def zoomOut (m : ℤ) : ℤ :=
  if m - 1 = 0 then m - 3 else m - 1

/-- The magnification factor derived from the `magnify` state variable, from
`Canvas.onMouseWheel` in `src/pixie_trap/canvas.py` line 974:
`np.power(float(abs(self.magnify)), np.sign(self.magnify))`, i.e. `m` for
`m > 0`, `1 / |m|` for `m < 0`, and `1` for `m = 0` (numpy evaluates `0.0 ** 0`
to `1.0`; the state `m = 0` is never reached). -/
def magnifyFactor (m : ℤ) : ℚ :=
  if 0 < m then (m : ℚ)
  else if m < 0 then 1 / ((-m : ℤ) : ℚ)
  else 1

/-- The `magnify` state starts at `1` (`Canvas.__init__` and `Canvas.LoadImage`
both set `self.magnify = 1`, `self.magnify_factor = 1`). -/
def magnifyBase : ℤ := 1

end PixieTrap

namespace PixieTrap

/-- C9: `scale(BOTTOM_RIGHT, dx, dy)` followed by `scale(BOTTOM_RIGHT, -dx, -dy)`
restores the original rectangle exactly, for every integer rectangle and all
integer deltas. -/
theorem scale_bottom_right_roundtrip (r : Rect) (dx dy : ℤ) :
    (r.scale .bottom_right dx dy).scale .bottom_right (-dx) (-dy) = r := by
  cases r
  simp [Rect.scale]

/-- C10: a rectangle with negative width or height contains no point at all, and a
rectangle with zero width and zero height contains exactly its top-left corner
(containment is inclusive at both bounds). -/
theorem contains_degenerate (r : Rect) (p : Point) :
    ((r.w < 0 ∨ r.h < 0) → r.contains p = false) ∧
    (r.w = 0 → r.h = 0 → (r.contains p = true ↔ p.x = r.x ∧ p.y = r.y)) := by
  constructor
  · intro h
    simp only [Rect.contains, Bool.and_eq_false_iff, decide_eq_false_iff_not]
    rcases h with h | h
    · left
      omega
    · right
      omega
  · intro hw hh
    simp only [Rect.contains, Bool.and_eq_true, decide_eq_true_eq]
    omega

/-- Witness for C10 at concrete inputs: the rectangle `(0, 0, -1, 2)` contains no
point (here tested at the origin), and the zero-sized rectangle at `(5, 7)`
contains exactly `(5, 7)`. -/
theorem contains_degenerate_witness :
    (Rect.contains ⟨0, 0, -1, 2⟩ ⟨0, 0⟩ = false) ∧
    (Rect.contains ⟨5, 7, 0, 0⟩ ⟨5, 7⟩ = true ↔ (5 : ℤ) = 5 ∧ (7 : ℤ) = 7) :=
  ⟨(contains_degenerate ⟨0, 0, -1, 2⟩ ⟨0, 0⟩).1 (Or.inl (by decide)),
   (contains_degenerate ⟨5, 7, 0, 0⟩ ⟨5, 7⟩).2 rfl rfl⟩

/-- Iterating `zoomIn` from the base state `magnify = 1` reaches `1 + n`: the
skip-over-`-1` branch never fires on this side of the origin. -/
lemma zoomIn_iterate (n : ℕ) : zoomIn^[n] magnifyBase = 1 + n := by
  induction n with
  | zero => rfl
  | succ k ih =>
      rw [Function.iterate_succ_apply', ih, zoomIn]
      split
      · omega
      · omega

/-- Iterating `zoomOut` at least once from the base state `magnify = 1` reaches
`-(1 + n)`: the first step skips from `0` to `-2`, and later steps decrement. -/
lemma zoomOut_iterate (n : ℕ) (h : 1 ≤ n) : zoomOut^[n] magnifyBase = -(1 + n) := by
  induction n with
  | zero => omega
  | succ k ih =>
      rw [Function.iterate_succ_apply']
      rcases Nat.eq_zero_or_pos k with hk | hk
      · subst hk
        decide
      · rw [ih hk, zoomOut]
        split
        · omega
        · omega

/-- C3: at the base zoom level the magnification factor is exactly `1`; after
`n ≥ 1` zoom-in steps it is `n + 1`; after `n ≥ 1` zoom-out steps it is
`1 / (1 + n)`. -/
theorem magnification_of_zoom_steps (n : ℕ) (h : 1 ≤ n) :
    magnifyFactor magnifyBase = 1 ∧
    magnifyFactor (zoomIn^[n] magnifyBase) = (n : ℚ) + 1 ∧
    magnifyFactor (zoomOut^[n] magnifyBase) = 1 / (1 + (n : ℚ)) := by
  refine ⟨by decide, ?_, ?_⟩
  · rw [zoomIn_iterate, magnifyFactor, if_pos (by omega)]
    push_cast
    ring
  · rw [zoomOut_iterate n h, magnifyFactor, if_neg (by omega), if_pos (by omega)]
    push_cast
    ring

/-- Witness for C3 at `n = 3`: three zoom-in steps give factor `4`, three
zoom-out steps give factor `1/4`. -/
theorem magnification_of_zoom_steps_witness :
    1 ≤ 3 ∧
    (magnifyFactor magnifyBase = 1 ∧
      magnifyFactor (zoomIn^[3] magnifyBase) = (3 : ℚ) + 1 ∧
      magnifyFactor (zoomOut^[3] magnifyBase) = 1 / (1 + (3 : ℚ))) :=
  ⟨by decide, magnification_of_zoom_steps 3 (by decide)⟩

/-- The view-to-document transform of one coordinate: Python
`(p - self.sheet_pos.x) // self.magnify_factor` (floor division by the float
magnification factor), as used by `Canvas.FindSelectionZone` and
`Canvas.onLeftDown` in `src/pixie_trap/canvas.py`. -/
def viewToDoc (p pan : ℤ) (m : ℚ) : ℤ := ⌊((p - pan : ℤ) : ℚ) / m⌋

/-- The pan update of one coordinate performed by `Canvas.onMouseWheel` in
`src/pixie_trap/canvas.py` lines 978-980:
`self.sheet_pos.Set(x=x - (self.magnify_factor / old_mag) * (x - self.sheet_pos.x), ...)`,
where `Rect.set` stores the coordinate through Python `int()` (truncation
toward zero). -/
def wheelPan (c pan : ℤ) (oldM newM : ℚ) : ℤ :=
  pyInt ((c : ℚ) - (newM / oldM) * ((c : ℚ) - (pan : ℚ)))

/-- The function `pyInt` is the identity on integers. -/
lemma pyInt_intCast (z : ℤ) : pyInt ((z : ℤ) : ℚ) = z := by
  unfold pyInt
  split
  · exact Int.floor_intCast z
  · exact Int.ceil_intCast z

/-- Subtracting the truncation of `c - t` from the integer `c` gives either
`⌊t⌋` or `⌈t⌉`, depending on the sign of `c - t`. -/
lemma sub_pyInt_eq (c : ℤ) (t : ℚ) :
    c - pyInt ((c : ℚ) - t) = if (c : ℚ) - t < 0 then ⌊t⌋ else ⌈t⌉ := by
  unfold pyInt
  rcases lt_or_le ((c : ℚ) - t) 0 with h | h
  · rw [if_neg (not_le.mpr h), if_pos h]
    have : ((c : ℚ) - t) = -t + (c : ℤ) := by ring
    rw [this, Int.ceil_add_int, Int.ceil_neg]
    omega
  · rw [if_pos h, if_neg (not_lt.mpr h)]
    have : ((c : ℚ) - t) = -t + (c : ℤ) := by ring
    rw [this, Int.floor_add_int, Int.floor_neg]
    omega

/-- If the integer `r` lies in `(t - 1, t + 1]` and `1 ≤ m`, then `⌊r / m⌋`
differs from `⌊t / m⌋` by at most one. -/
lemma floor_div_close (m t : ℚ) (hm : 1 ≤ m) (r : ℤ)
    (h1 : t - 1 < (r : ℚ)) (h2 : (r : ℚ) ≤ t + 1) :
    |⌊(r : ℚ) / m⌋ - ⌊t / m⌋| ≤ 1 := by
  have hm0 : (0 : ℚ) < m := lt_of_lt_of_le one_pos hm
  have hinv : 1 / m ≤ 1 := by
    rw [div_le_one hm0]
    exact hm
  have hup : ⌊(r : ℚ) / m⌋ ≤ ⌊t / m⌋ + 1 := by
    have hle : (r : ℚ) / m ≤ t / m + 1 := by
      have h3 : (r : ℚ) / m ≤ (t + 1) / m := (div_le_div_iff_of_pos_right hm0).mpr h2
      have h4 : (t + 1) / m = t / m + 1 / m := by ring
      rw [h4] at h3
      linarith
    calc ⌊(r : ℚ) / m⌋ ≤ ⌊t / m + 1⌋ := Int.floor_le_floor hle
      _ = ⌊t / m⌋ + 1 := by rw [Int.floor_add_one]
  have hdown : ⌊t / m⌋ - 1 ≤ ⌊(r : ℚ) / m⌋ := by
    have hle : t / m - 1 ≤ (r : ℚ) / m := by
      have h3 : (t - 1) / m ≤ (r : ℚ) / m := (div_le_div_iff_of_pos_right hm0).mpr h1.le
      have h4 : (t - 1) / m = t / m - 1 / m := by ring
      rw [h4] at h3
      linarith
    calc (⌊t / m⌋ - 1 : ℤ) = ⌊t / m - 1⌋ := by rw [Int.floor_sub_one]
      _ ≤ ⌊(r : ℚ) / m⌋ := Int.floor_le_floor hle
  rw [abs_le]
  omega

/-- The one-pixel anchoring bound behind C4: after the truncated pan update, the
document coordinate under the cursor moves by at most one, provided the new
magnification factor is at least `1`. -/
lemma wheelPan_doc_bound (c pan : ℤ) (oldM newM : ℚ)
    (hOld : 0 < oldM) (hNew : 1 ≤ newM) :
    |viewToDoc c (wheelPan c pan oldM newM) newM - viewToDoc c pan oldM| ≤ 1 := by
  have hOld0 : oldM ≠ 0 := ne_of_gt hOld
  have hNewpos : (0 : ℚ) < newM := lt_of_lt_of_le one_pos hNew
  have hNew0 : newM ≠ 0 := ne_of_gt hNewpos
  set t : ℚ := (newM / oldM) * ((c : ℚ) - (pan : ℚ)) with ht
  have h1 : ((c - pan : ℤ) : ℚ) / oldM = t / newM := by
    rw [ht]
    push_cast
    field_simp
    ring
  have h2 : c - wheelPan c pan oldM newM = if (c : ℚ) - t < 0 then ⌊t⌋ else ⌈t⌉ :=
    sub_pyInt_eq c t
  have hlow : t - 1 < ((c - wheelPan c pan oldM newM : ℤ) : ℚ) := by
    rw [h2]
    split
    · exact Int.sub_one_lt_floor t
    · have h := Int.le_ceil t
      linarith
  have hhigh : ((c - wheelPan c pan oldM newM : ℤ) : ℚ) ≤ t + 1 := by
    rw [h2]
    split
    · have h := Int.floor_le t
      linarith
    · have h3 := Int.ceil_le_floor_add_one t
      have h4 := Int.floor_le t
      have h5 : ((⌈t⌉ : ℤ) : ℚ) ≤ ((⌊t⌋ : ℤ) : ℚ) + 1 := by
        exact_mod_cast h3
      linarith
  have hgoal : viewToDoc c pan oldM = ⌊t / newM⌋ := by
    unfold viewToDoc
    rw [h1]
  have hgoal2 : viewToDoc c (wheelPan c pan oldM newM) newM =
      ⌊((c - wheelPan c pan oldM newM : ℤ) : ℚ) / newM⌋ := rfl
  rw [hgoal, hgoal2]
  exact floor_div_close newM t hNew _ hlow hhigh

/-- C4 (amended): on a zoom step from factor `oldM > 0` to factor `newM`, the new
pan coordinate is the anchoring formula `c - (newM/oldM) * (c - pan)` truncated
toward zero to an integer; whenever the new factor is at least `1`, the
document-space point under the cursor `c` after the step differs from the one
before it by at most one document pixel, and it is preserved exactly when the
step starts at factor `1` and zooms in to an integer factor. -/
theorem wheelPan_anchors_cursor (c pan : ℤ) (oldM newM : ℚ)
    (hOld : 0 < oldM) (hNew : 1 ≤ newM) :
    wheelPan c pan oldM newM = pyInt ((c : ℚ) - (newM / oldM) * ((c : ℚ) - (pan : ℚ))) ∧
    |viewToDoc c (wheelPan c pan oldM newM) newM - viewToDoc c pan oldM| ≤ 1 ∧
    (∀ k : ℤ, oldM = 1 → newM = (k : ℚ) →
      viewToDoc c (wheelPan c pan oldM newM) newM = viewToDoc c pan oldM) := by
  refine ⟨rfl, wheelPan_doc_bound c pan oldM newM hOld hNew, ?_⟩
  intro k h1 h2
  subst h1
  subst h2
  have hk : (1 : ℚ) ≤ (k : ℚ) := hNew
  have hk0 : (k : ℚ) ≠ 0 := by
    intro h
    rw [h] at hk
    norm_num at hk
  have harg : (k : ℚ) / 1 * ((c : ℚ) - (pan : ℚ)) = (k : ℚ) * ((c : ℚ) - (pan : ℚ)) := by
    ring
  have hpan : wheelPan c pan 1 (k : ℚ) = c - k * (c - pan) := by
    unfold wheelPan
    have hcast : (c : ℚ) - ((k : ℚ) / 1) * ((c : ℚ) - (pan : ℚ)) =
        ((c - k * (c - pan) : ℤ) : ℚ) := by
      push_cast
      ring
    rw [hcast, pyInt_intCast]
  rw [hpan]
  unfold viewToDoc
  have hnum : ((c - (c - k * (c - pan)) : ℤ) : ℚ) = (k : ℚ) * ((c - pan : ℤ) : ℚ) := by
    push_cast
    ring
  rw [hnum, mul_div_assoc, mul_div_cancel₀ _ hk0]
  norm_num

/-- Witness for C4 at a concrete zoom-in step: cursor `10`, pan `3`, factor `1 → 2`. -/
theorem wheelPan_anchors_cursor_witness :
    (0 : ℚ) < 1 ∧ (1 : ℚ) ≤ 2 ∧
    (wheelPan 10 3 1 2 = pyInt ((10 : ℚ) - ((2 : ℚ) / 1) * ((10 : ℚ) - (3 : ℚ))) ∧
      |viewToDoc 10 (wheelPan 10 3 1 2) 2 - viewToDoc 10 3 1| ≤ 1 ∧
      (∀ k : ℤ, (1 : ℚ) = 1 → (2 : ℚ) = (k : ℚ) →
        viewToDoc 10 (wheelPan 10 3 1 2) 2 = viewToDoc 10 3 1)) :=
  ⟨by norm_num, by norm_num, wheelPan_anchors_cursor 10 3 1 2 (by norm_num) (by norm_num)⟩

/-- Counterexample for C4 as stated: on the real zoom-out step from factor `1/2`
(`magnify = -2`) to factor `1/3` (`magnify = -3`), with cursor `0` and pan `-4`,
the stored pan is the truncated value `-2`, not the exact formula value `-8/3`,
and the document-space point under the cursor moves from `8` to `6` — two
document pixels, beyond the claimed one-pixel tolerance. -/
theorem wheelPan_anchors_cursor_counterexample :
    magnifyFactor (-2) = 1 / 2 ∧
    magnifyFactor (zoomOut (-2)) = 1 / 3 ∧
    ((wheelPan 0 (-4) (1 / 2) (1 / 3) : ℚ) ≠
      (0 : ℚ) - ((1 / 3 : ℚ) / (1 / 2 : ℚ)) * ((0 : ℚ) - (-4 : ℚ))) ∧
    viewToDoc 0 (wheelPan 0 (-4) (1 / 2) (1 / 3)) (1 / 3) = 6 ∧
    viewToDoc 0 (-4) (1 / 2) = 8 ∧
    ¬ |viewToDoc 0 (wheelPan 0 (-4) (1 / 2) (1 / 3)) (1 / 3) - viewToDoc 0 (-4) (1 / 2)| ≤ 1 := by
  have hceil : ⌈(-(8 : ℚ) / 3)⌉ = -2 := by
    rw [Int.ceil_eq_iff]
    norm_num
  have hpan : wheelPan 0 (-4) (1 / 2) (1 / 3) = -2 := by
    unfold wheelPan pyInt
    norm_num
    convert hceil using 2
    norm_num
  have hafter : viewToDoc 0 (wheelPan 0 (-4) (1 / 2) (1 / 3)) (1 / 3) = 6 := by
    rw [hpan]
    unfold viewToDoc
    rw [show ((0 - (-2) : ℤ) : ℚ) / (1 / 3) = 6 by norm_num]
    rw [Int.floor_eq_iff]
    norm_num
  have hbefore : viewToDoc 0 (-4) (1 / 2) = 8 := by
    unfold viewToDoc
    rw [show ((0 - (-4) : ℤ) : ℚ) / (1 / 2) = 8 by norm_num]
    rw [Int.floor_eq_iff]
    norm_num
  refine ⟨by norm_num [magnifyFactor], by norm_num [zoomOut, magnifyFactor], ?_, hafter, hbefore, ?_⟩
  · rw [hpan]
    norm_num
  · rw [hafter, hbefore]
    norm_num

end PixieTrap

namespace PixieTrap

/-- Multiplication by a positive step is monotone (helper for ruler arithmetic). -/
lemma mul_step_mono {s : ℤ} (hs : 0 < s) {a b : ℤ} (hab : a ≤ b) : a * s ≤ b * s :=
  mul_le_mul_of_nonneg_right hab hs.le

/-- Floor division recovers the interval index: if `i*s ≤ x < (i+1)*s` with
`s > 0` then `x.fdiv s = i`. -/
lemma fdiv_eq_index {x s i : ℤ} (hs : 0 < s) (h1 : i * s ≤ x) (h2 : x < (i + 1) * s) :
    x.fdiv s = i := by
  rw [Int.fdiv_eq_ediv _ hs.le]
  have hx : x = (x - i * s) + i * s := by ring
  rw [hx, Int.add_mul_ediv_right _ _ (ne_of_gt hs)]
  rw [Int.ediv_eq_zero_of_lt (by linarith) (by linarith)]
  omega

/-- If `x` lies left of the first ruler or at/after the last one, both indicator
sums are zero. -/
lemma pairSum_miss (s x : ℤ) (hs : 0 < s) :
    ∀ (m i : ℕ), (x < (i : ℤ) * s ∨ ((i + m : ℕ) : ℤ) * s ≤ x) →
      pairSum (rulersFrom i (m + 1) s) x = (0, 0) := by
  intro m
  induction m with
  | zero =>
      intro i h
      show pairSum [(i : ℤ) * s] x = (0, 0)
      rfl
  | succ m ih =>
      intro i h
      have hexp : rulersFrom i (m + 2) s = (i : ℤ) * s :: rulersFrom (i + 1) (m + 1) s := rfl
      have hexp2 : rulersFrom (i + 1) (m + 1) s =
          ((i + 1 : ℕ) : ℤ) * s :: rulersFrom (i + 2) m s := rfl
      rw [hexp, hexp2]
      show ((pairSum (((i + 1 : ℕ) : ℤ) * s :: rulersFrom (i + 2) m s) x).1 +
          if (i : ℤ) * s ≤ x ∧ x < ((i + 1 : ℕ) : ℤ) * s then (i : ℤ) * s else 0,
        (pairSum (((i + 1 : ℕ) : ℤ) * s :: rulersFrom (i + 2) m s) x).2 +
          if (i : ℤ) * s ≤ x ∧ x < ((i + 1 : ℕ) : ℤ) * s then ((i + 1 : ℕ) : ℤ) * s else 0) = (0, 0)
      rw [← hexp2]
      have hstep : ((i : ℕ) : ℤ) * s ≤ ((i + 1 : ℕ) : ℤ) * s := by
        apply mul_step_mono hs
        push_cast
        omega
      have htail : pairSum (rulersFrom (i + 1) (m + 1) s) x = (0, 0) := by
        apply ih
        rcases h with h | h
        · left
          linarith
        · right
          have hcast : ((i + 1 + m : ℕ) : ℤ) = ((i + (m + 1) : ℕ) : ℤ) := by
            push_cast
            ring
          rw [hcast]
          exact h
      rw [htail]
      have hcond : ¬ ((i : ℤ) * s ≤ x ∧ x < ((i + 1 : ℕ) : ℤ) * s) := by
        rcases h with h | h
        · intro hc
          linarith [hc.1]
        · intro hc
          have hle : ((i + 1 : ℕ) : ℤ) * s ≤ ((i + (m + 1) : ℕ) : ℤ) * s := by
            apply mul_step_mono hs
            push_cast
            omega
          linarith [hc.2]
      rw [if_neg hcond, if_neg hcond]
      simp

/-- If `x` lies in the `j`-th ruler interval and that interval is among the ones
listed, the indicator sums pick out exactly its two bounds. -/
lemma pairSum_hit (s x : ℤ) (hs : 0 < s) :
    ∀ (m i j : ℕ), i ≤ j → j < i + m → (j : ℤ) * s ≤ x → x < ((j : ℤ) + 1) * s →
      pairSum (rulersFrom i (m + 1) s) x = ((j : ℤ) * s, ((j : ℤ) + 1) * s) := by
  intro m
  induction m with
  | zero =>
      intro i j hij hjm _ _
      omega
  | succ m ih =>
      intro i j hij hjm hlo hhi
      have hexp : rulersFrom i (m + 2) s = (i : ℤ) * s :: rulersFrom (i + 1) (m + 1) s := rfl
      have hexp2 : rulersFrom (i + 1) (m + 1) s =
          ((i + 1 : ℕ) : ℤ) * s :: rulersFrom (i + 2) m s := rfl
      rw [hexp, hexp2]
      show ((pairSum (((i + 1 : ℕ) : ℤ) * s :: rulersFrom (i + 2) m s) x).1 +
          if (i : ℤ) * s ≤ x ∧ x < ((i + 1 : ℕ) : ℤ) * s then (i : ℤ) * s else 0,
        (pairSum (((i + 1 : ℕ) : ℤ) * s :: rulersFrom (i + 2) m s) x).2 +
          if (i : ℤ) * s ≤ x ∧ x < ((i + 1 : ℕ) : ℤ) * s then ((i + 1 : ℕ) : ℤ) * s else 0) =
        ((j : ℤ) * s, ((j : ℤ) + 1) * s)
      rw [← hexp2]
      rcases Nat.eq_or_lt_of_le hij with heq | hlt
      · subst heq
        have htail : pairSum (rulersFrom (i + 1) (m + 1) s) x = (0, 0) := by
          apply pairSum_miss s x hs m (i + 1)
          left
          push_cast
          linarith
        rw [htail]
        have hcond : (i : ℤ) * s ≤ x ∧ x < ((i + 1 : ℕ) : ℤ) * s := by
          constructor
          · exact hlo
          · push_cast
            linarith
        rw [if_pos hcond, if_pos hcond]
        push_cast
        simp
      · have htail : pairSum (rulersFrom (i + 1) (m + 1) s) x =
            ((j : ℤ) * s, ((j : ℤ) + 1) * s) := by
          apply ih (i + 1) j hlt (by omega) hlo hhi
        rw [htail]
        have hcond : ¬ ((i : ℤ) * s ≤ x ∧ x < ((i + 1 : ℕ) : ℤ) * s) := by
          intro hc
          have hmono : ((i + 1 : ℕ) : ℤ) * s ≤ (j : ℤ) * s := by
            apply mul_step_mono hs
            push_cast
            omega
          linarith [hc.2]
        rw [if_neg hcond, if_neg hcond]
        simp

/-- The list `rulersFrom i m s` holds the `m` multiples of `s` starting at index `i`. -/
lemma rulersFrom_eq_map :
    ∀ (m i : ℕ) (s : ℤ),
      rulersFrom i m s = (List.range m).map (fun k => ((i + k : ℕ) : ℤ) * s) := by
  intro m
  induction m with
  | zero =>
      intro i s
      rfl
  | succ m ih =>
      intro i s
      rw [List.range_succ_eq_map]
      show (i : ℤ) * s :: rulersFrom (i + 1) m s = _
      rw [ih (i + 1) s]
      simp only [List.map_cons, List.map_map]
      refine congrArg₂ List.cons (by push_cast; ring) ?_
      apply List.map_congr_left
      intro k _
      simp only [Function.comp_apply]
      push_cast
      ring

/-- Exact division facts for the grid step: with `cols ∣ w`, `1 ≤ cols ≤ w`, the
step `sx = w.fdiv cols` is positive, satisfies `cols * sx = w`, and
`w.fdiv sx = cols`. -/
lemma grid_step_facts {w cols : ℤ} (hcols : 1 ≤ cols) (hcw : cols ∣ w) (hwc : cols ≤ w) :
    0 < w.fdiv cols ∧ cols * w.fdiv cols = w ∧ w.fdiv (w.fdiv cols) = cols := by
  obtain ⟨q, hq⟩ := hcw
  have hc0 : cols ≠ 0 := by omega
  have hfd : w.fdiv cols = q := by
    rw [hq, Int.fdiv_eq_ediv _ (by omega), Int.mul_ediv_cancel_left q hc0]
  have hq1 : 1 ≤ q := by
    by_contra hneg
    push_neg at hneg
    have : w ≤ 0 := by
      rw [hq]
      nlinarith
    omega
  refine ⟨by rw [hfd]; omega, by rw [hfd]; exact hq.symm, ?_⟩
  rw [hfd, hq, mul_comm cols q, Int.fdiv_eq_ediv _ (by omega),
    Int.mul_ediv_cancel_left cols (by omega)]

/-- C5 (amended): with `rows, cols ≥ 1` dividing the sheet dimensions, the
boundaries are `cols + 1` (resp. `rows + 1`) evenly spaced multiples of the
step spanning `[0, w]` (resp. `[0, h]`); every point inside the sheet resolves
to the unique grid cell containing it, returned with that cell's rectangle; a
point whose `x` lies outside `[0, w)` yields `rect_x = rect_w = 0`, and a point
whose `y` lies outside `[0, h)` yields `rect_y = rect_h = 0` (so the result is
all-zero only when the point is outside in both axes). -/
theorem findSelectionZone_partition (w h rows cols x y : ℤ)
    (hrows : 1 ≤ rows) (hcols : 1 ≤ cols)
    (hcw : cols ∣ w) (hrh : rows ∣ h) (hwc : cols ≤ w) (hhr : rows ≤ h) :
    (rulers w (w.fdiv cols) =
        (List.range (cols.toNat + 1)).map (fun k : ℕ => (k : ℤ) * w.fdiv cols) ∧
      cols * w.fdiv cols = w) ∧
    (rulers h (h.fdiv rows) =
        (List.range (rows.toNat + 1)).map (fun k : ℕ => (k : ℤ) * h.fdiv rows) ∧
      rows * h.fdiv rows = h) ∧
    (0 ≤ x → x < w → 0 ≤ y → y < h →
      findSelectionZone x y w h rows cols =
        (x.fdiv (w.fdiv cols) * w.fdiv cols, y.fdiv (h.fdiv rows) * h.fdiv rows,
          w.fdiv cols, h.fdiv rows) ∧
      x.fdiv (w.fdiv cols) * w.fdiv cols ≤ x ∧
      x < (x.fdiv (w.fdiv cols) + 1) * w.fdiv cols ∧
      y.fdiv (h.fdiv rows) * h.fdiv rows ≤ y ∧
      y < (y.fdiv (h.fdiv rows) + 1) * h.fdiv rows) ∧
    (∀ i : ℤ, i * w.fdiv cols ≤ x → x < (i + 1) * w.fdiv cols → i = x.fdiv (w.fdiv cols)) ∧
    ((x < 0 ∨ w ≤ x) →
      (findSelectionZone x y w h rows cols).1 = 0 ∧
      (findSelectionZone x y w h rows cols).2.2.1 = 0) ∧
    ((y < 0 ∨ h ≤ y) →
      (findSelectionZone x y w h rows cols).2.1 = 0 ∧
      (findSelectionZone x y w h rows cols).2.2.2 = 0) := by
  obtain ⟨hsx, hsxw, hwsx⟩ := grid_step_facts hcols hcw hwc
  obtain ⟨hsy, hsyh, hhsy⟩ := grid_step_facts hrows hrh hhr
  set sx := w.fdiv cols with hsxdef
  set sy := h.fdiv rows with hsydef
  have hrulx : rulers w sx = rulersFrom 0 (cols.toNat + 1) sx := by
    rw [rulers, hwsx]
  have hruly : rulers h sy = rulersFrom 0 (rows.toNat + 1) sy := by
    rw [rulers, hhsy]
  have hsx0 : sx ≠ 0 := by omega
  have hsy0 : sy ≠ 0 := by omega
  refine ⟨⟨?_, hsxw⟩, ⟨?_, hsyh⟩, ?_, ?_, ?_, ?_⟩
  · rw [hrulx, rulersFrom_eq_map]
    apply List.map_congr_left
    intro k _
    norm_num
  · rw [hruly, rulersFrom_eq_map]
    apply List.map_congr_left
    intro k _
    norm_num
  · intro hx0 hxw hy0 hyh
    have hxlo : x.fdiv sx * sx ≤ x := by
      rw [Int.fdiv_eq_ediv _ hsx.le]
      exact Int.ediv_mul_le x hsx0
    have hxhi : x < (x.fdiv sx + 1) * sx := by
      rw [Int.fdiv_eq_ediv _ hsx.le]
      exact Int.lt_ediv_add_one_mul_self x hsx
    have hylo : y.fdiv sy * sy ≤ y := by
      rw [Int.fdiv_eq_ediv _ hsy.le]
      exact Int.ediv_mul_le y hsy0
    have hyhi : y < (y.fdiv sy + 1) * sy := by
      rw [Int.fdiv_eq_ediv _ hsy.le]
      exact Int.lt_ediv_add_one_mul_self y hsy
    have hjx0 : 0 ≤ x.fdiv sx := by
      rw [Int.fdiv_eq_ediv _ hsx.le]
      exact Int.ediv_nonneg hx0 hsx.le
    have hjy0 : 0 ≤ y.fdiv sy := by
      rw [Int.fdiv_eq_ediv _ hsy.le]
      exact Int.ediv_nonneg hy0 hsy.le
    have hjxlt : x.fdiv sx < cols := by
      rw [Int.fdiv_eq_ediv _ hsx.le]
      rw [Int.ediv_lt_iff_lt_mul hsx]
      omega
    have hjylt : y.fdiv sy < rows := by
      rw [Int.fdiv_eq_ediv _ hsy.le]
      rw [Int.ediv_lt_iff_lt_mul hsy]
      omega
    have hcastx : ((x.fdiv sx).toNat : ℤ) = x.fdiv sx := Int.toNat_of_nonneg hjx0
    have hcasty : ((y.fdiv sy).toNat : ℤ) = y.fdiv sy := Int.toNat_of_nonneg hjy0
    have hvx : pairSum (rulers w sx) x = (x.fdiv sx * sx, (x.fdiv sx + 1) * sx) := by
      rw [hrulx]
      have := pairSum_hit sx x hsx cols.toNat 0 (x.fdiv sx).toNat (by omega) (by omega)
        (by rw [hcastx]; exact hxlo) (by rw [hcastx]; exact hxhi)
      rw [hcastx] at this
      exact this
    have hvy : pairSum (rulers h sy) y = (y.fdiv sy * sy, (y.fdiv sy + 1) * sy) := by
      rw [hruly]
      have := pairSum_hit sy y hsy rows.toNat 0 (y.fdiv sy).toNat (by omega) (by omega)
        (by rw [hcasty]; exact hylo) (by rw [hcasty]; exact hyhi)
      rw [hcasty] at this
      exact this
    refine ⟨?_, hxlo, hxhi, hylo, hyhi⟩
    show (let vx := pairSum (rulers w sx) x
      let vy := pairSum (rulers h sy) y
      ((vx.1, vy.1, vx.2 - vx.1, vy.2 - vy.1) : ℤ × ℤ × ℤ × ℤ)) = _
    rw [hvx, hvy]
    simp only
    refine congrArg₂ Prod.mk rfl (congrArg₂ Prod.mk rfl (congrArg₂ Prod.mk ?_ ?_))
    · ring
    · ring
  · intro i h1 h2
    exact (fdiv_eq_index hsx h1 h2).symm
  · intro hout
    have hvx : pairSum (rulers w sx) x = (0, 0) := by
      rw [hrulx]
      apply pairSum_miss sx x hsx cols.toNat 0
      rcases hout with hout | hout
      · left
        omega
      · right
        have : ((0 + cols.toNat : ℕ) : ℤ) = cols := by omega
        rw [this]
        omega
    constructor
    · show (let vx := pairSum (rulers w sx) x
        let vy := pairSum (rulers h sy) y
        ((vx.1, vy.1, vx.2 - vx.1, vy.2 - vy.1) : ℤ × ℤ × ℤ × ℤ)).1 = 0
      rw [hvx]
    · show (let vx := pairSum (rulers w sx) x
        let vy := pairSum (rulers h sy) y
        ((vx.1, vy.1, vx.2 - vx.1, vy.2 - vy.1) : ℤ × ℤ × ℤ × ℤ)).2.2.1 = 0
      rw [hvx]
      simp
  · intro hout
    have hvy : pairSum (rulers h sy) y = (0, 0) := by
      rw [hruly]
      apply pairSum_miss sy y hsy rows.toNat 0
      rcases hout with hout | hout
      · left
        omega
      · right
        have : ((0 + rows.toNat : ℕ) : ℤ) = rows := by omega
        rw [this]
        omega
    constructor
    · show (let vx := pairSum (rulers w sx) x
        let vy := pairSum (rulers h sy) y
        ((vx.1, vy.1, vx.2 - vx.1, vy.2 - vy.1) : ℤ × ℤ × ℤ × ℤ)).2.1 = 0
      rw [hvy]
    · show (let vx := pairSum (rulers w sx) x
        let vy := pairSum (rulers h sy) y
        ((vx.1, vy.1, vx.2 - vx.1, vy.2 - vy.1) : ℤ × ℤ × ℤ × ℤ)).2.2.2 = 0
      rw [hvy]
      simp

/-- Witness for C5 on a 300 by 200 sheet with 2 columns and 4 rows at the interior
point `(50, 50)`. -/
theorem findSelectionZone_partition_witness :
    (1 : ℤ) ≤ 4 ∧ (1 : ℤ) ≤ 2 ∧ (2 : ℤ) ∣ 300 ∧ (4 : ℤ) ∣ 200 ∧
      (2 : ℤ) ≤ 300 ∧ (4 : ℤ) ≤ 200 ∧
    ((rulers 300 ((300 : ℤ).fdiv 2) =
        (List.range ((2 : ℤ).toNat + 1)).map (fun k : ℕ => (k : ℤ) * (300 : ℤ).fdiv 2) ∧
      (2 : ℤ) * (300 : ℤ).fdiv 2 = 300) ∧
    (rulers 200 ((200 : ℤ).fdiv 4) =
        (List.range ((4 : ℤ).toNat + 1)).map (fun k : ℕ => (k : ℤ) * (200 : ℤ).fdiv 4) ∧
      (4 : ℤ) * (200 : ℤ).fdiv 4 = 200) ∧
    ((0 : ℤ) ≤ 50 → (50 : ℤ) < 300 → (0 : ℤ) ≤ 50 → (50 : ℤ) < 200 →
      findSelectionZone 50 50 300 200 4 2 =
        ((50 : ℤ).fdiv ((300 : ℤ).fdiv 2) * (300 : ℤ).fdiv 2,
          (50 : ℤ).fdiv ((200 : ℤ).fdiv 4) * (200 : ℤ).fdiv 4,
          (300 : ℤ).fdiv 2, (200 : ℤ).fdiv 4) ∧
      (50 : ℤ).fdiv ((300 : ℤ).fdiv 2) * (300 : ℤ).fdiv 2 ≤ 50 ∧
      (50 : ℤ) < ((50 : ℤ).fdiv ((300 : ℤ).fdiv 2) + 1) * (300 : ℤ).fdiv 2 ∧
      (50 : ℤ).fdiv ((200 : ℤ).fdiv 4) * (200 : ℤ).fdiv 4 ≤ 50 ∧
      (50 : ℤ) < ((50 : ℤ).fdiv ((200 : ℤ).fdiv 4) + 1) * (200 : ℤ).fdiv 4) ∧
    (∀ i : ℤ, i * (300 : ℤ).fdiv 2 ≤ 50 → (50 : ℤ) < (i + 1) * (300 : ℤ).fdiv 2 →
      i = (50 : ℤ).fdiv ((300 : ℤ).fdiv 2)) ∧
    (((50 : ℤ) < 0 ∨ (300 : ℤ) ≤ 50) →
      (findSelectionZone 50 50 300 200 4 2).1 = 0 ∧
      (findSelectionZone 50 50 300 200 4 2).2.2.1 = 0) ∧
    (((50 : ℤ) < 0 ∨ (200 : ℤ) ≤ 50) →
      (findSelectionZone 50 50 300 200 4 2).2.1 = 0 ∧
      (findSelectionZone 50 50 300 200 4 2).2.2.2 = 0)) :=
  ⟨by decide, by decide, by decide, by decide, by decide, by decide,
    findSelectionZone_partition 300 200 4 2 50 50 (by decide) (by decide)
      (by decide) (by decide) (by decide) (by decide)⟩

/-- Counterexample for C5 as stated: on the spec's own example grid (`rows = 3`,
`cols = 2`, 300 by 200 sheet) the point `(-5, 50)` lies outside
`[0, 300) × [0, 200)`, yet `FindSelectionZone` returns `(0, 0, 0, 66)`, not the
all-zero no-cell result: the height is the full row height `66`. -/
theorem findSelectionZone_partition_counterexample :
    findSelectionZone (-5) 50 300 200 3 2 = (0, 0, 0, 66) ∧
    ((0, 0, 0, 66) : ℤ × ℤ × ℤ × ℤ) ≠ (0, 0, 0, 0) := by
  constructor
  · decide
  · decide

/-- C8 evaluation at the failing input: `ScaleRects.set` sizes every scaling pin
as a square of side `2 * radius` in the hitbox's own (document) coordinate
space, with no dependence on a magnification factor, so for the hitbox
`(10, 10, 100, 50)` with radius `5` every pin has side `10`; the claimed
document-space footprint at magnification `2` would be `2 * 5 / 2 = 5`. -/
theorem scaleRectsSet_footprint_eval :
    (∀ (rect : Rect) (radius : ℤ) (s : Scale),
      (scaleRectsSet rect radius s).w = 2 * radius ∧
      (scaleRectsSet rect radius s).h = 2 * radius) ∧
    (scaleRectsSet ⟨10, 10, 100, 50⟩ 5 Scale.top_left).w = 10 ∧
    (10 : ℤ) ≠ 2 * 5 / 2 := by
  refine ⟨?_, rfl, by decide⟩
  intro rect radius s
  cases s <;> exact ⟨rfl, rfl⟩

/-- Python `dict` assignment `d[k] = v`: replace the value in place when the key
is present (keeping its position, as CPython dicts do), append otherwise. -/
def dictInsert {α β : Type} [DecidableEq α] : List (α × β) → α → β → List (α × β)
  | [], k, v => [(k, v)]
  | (k0, v0) :: rest, k, v =>
      if k0 = k then (k0, v) :: rest else (k0, v0) :: dictInsert rest k v

/-- Building a Python `dict` by inserting a list of key/value pairs in order. -/
def dictOf {α β : Type} [DecidableEq α] (l : List (α × β)) : List (α × β) :=
  l.foldl (fun acc p => dictInsert acc p.1 p.2) []

/-- The canvas state relevant to the DRAW-mode hitbox lifecycle of
`src/pixie_trap/canvas.py`: `self.destinations` (the `Rects` array of hitbox
rectangles), `self.sprites` (mapping a sprite cell key to the dict from hitbox
label ids to indices into `destinations`), `self.n_hitboxes_created`,
`self.hitbox_select`, `self.select_position`, `self.sheet_pos` (pan offset) and
`self.magnify_factor`. -/
structure DrawState where
  destinations : List Rect
  sprites : List ((ℤ × ℤ) × List (ℕ × ℕ))
  n_hitboxes_created : ℕ
  hitbox_select : Option ℕ
  select_position : Rect
  sheet_pos : Point
  magnify_factor : ℚ
deriving DecidableEq, Repr

/-- Embedding of `Canvas.onLeftDown` in DRAW mode, `src/pixie_trap/canvas.py` lines 752-768:
append a zero-sized rectangle at the document-space click point to
`destinations`, select its index, record it in the selected sprite's dict under
the key `n_hitboxes_created`, and increment the counter.  (The source indexes
`self.sprites[sprite]` directly; the `map` below updates that entry when the
cell key is present, which is the only state the handler is reached in.) -/
def onLeftDownDraw (s : DrawState) (vx vy : ℤ) : DrawState :=
  let sprite := (s.select_position.x, s.select_position.y)
  let newRect : Rect :=
    ⟨viewToDoc vx s.sheet_pos.x s.magnify_factor,
      viewToDoc vy s.sheet_pos.y s.magnify_factor, 0, 0⟩
  let dests := s.destinations ++ [newRect]
  let idx := dests.length - 1
  { s with
    destinations := dests
    hitbox_select := some idx
    sprites := s.sprites.map fun q =>
      if q.1 = sprite then (q.1, dictInsert q.2 s.n_hitboxes_created idx) else q
    n_hitboxes_created := s.n_hitboxes_created + 1 }

/-- Embedding of `Canvas.onLeftUp` in DRAW mode, `src/pixie_trap/canvas.py` lines 788-802:
if a hitbox is selected and its rectangle is degenerate (`w <= 0 or h <= 0`),
delete it from `destinations` (`np.delete`, i.e. remove the column at that
index) and clear the selection.  The subsequent re-index loop
`for index in sprite.values(): if index > self.hitbox_select: index -= 1`
rebinds the Python loop variable and mutates nothing, and the sprite's label
entry for the deleted hitbox is never removed, so `sprites` is left untouched
on this path, exactly as in the source. -/
def onLeftUpDraw (s : DrawState) : DrawState :=
  match s.hitbox_select with
  | none => s
  | some idx =>
      let hb := s.destinations.getD idx ⟨0, 0, 0, 0⟩
      if hb.w ≤ 0 ∨ hb.h ≤ 0 then
        { s with destinations := s.destinations.eraseIdx idx, hitbox_select := none }
      else
        { s with hitbox_select := none }

/-- Embedding of `Canvas.onKeyDown` with the delete key, `src/pixie_trap/canvas.py` lines
655-658: remove the selected hitbox's entry from the selected sprite's dict. -/
def deleteHitboxKey (s : DrawState) (cell : ℤ × ℤ) (label : ℕ) : DrawState :=
  { s with
    sprites := s.sprites.map fun q =>
      if q.1 = cell then (q.1, q.2.filter fun e => decide (e.1 ≠ label)) else q }

/-- The hitbox create/delete operations of one document session. -/
inductive DrawOp where
  | down (vx vy : ℤ)
  | up
  | delKey (cell : ℤ × ℤ) (label : ℕ)
deriving DecidableEq, Repr

/-- Event dispatch for the DRAW-mode lifecycle. -/
def drawStep (s : DrawState) : DrawOp → DrawState
  | .down vx vy => onLeftDownDraw s vx vy
  | .up => onLeftUpDraw s
  | .delKey cell label => deleteHitboxKey s cell label

/-- The document state right after loading a sheet and selecting the sprite
cell at the origin: no hitboxes, counter zero, pan zero, magnification one. -/
def initDrawState : DrawState :=
  ⟨[], [((0, 0), [])], 0, none, ⟨0, 0, 150, 100⟩, ⟨0, 0⟩, 1⟩

/-- One step of the run that also records the hitbox label id assigned by each
create (`onLeftDown` uses `n_hitboxes_created` as the new key in the sprite's
dict). -/
def runStep (p : DrawState × List ℕ) (op : DrawOp) : DrawState × List ℕ :=
  (drawStep p.1 op,
    match op with
    | .down _ _ => p.2 ++ [p.1.n_hitboxes_created]
    | _ => p.2)

/-- Run a sequence of operations from the initial state, collecting the list of
assigned hitbox label ids in order. -/
def runDrawTrace (ops : List DrawOp) : DrawState × List ℕ :=
  ops.foldl runStep (initDrawState, [])

/-- At magnification `1` the view-to-document transform is a pure translation. -/
lemma viewToDoc_one (p pan : ℤ) : viewToDoc p pan 1 = p - pan := by
  unfold viewToDoc
  rw [div_one, Int.floor_intCast]

/-- No event decreases the hitbox counter; a create increments it. -/
lemma drawStep_n (s : DrawState) (op : DrawOp) :
    s.n_hitboxes_created ≤ (drawStep s op).n_hitboxes_created := by
  cases op with
  | down vx vy => simp [drawStep, onLeftDownDraw]
  | up =>
      cases h : s.hitbox_select with
      | none => simp [drawStep, onLeftUpDraw, h]
      | some idx =>
          simp only [drawStep, onLeftUpDraw, h]
          split
          · simp
          · simp
  | delKey cell label => simp [drawStep, deleteHitboxKey]

/-- A single recorded step preserves the invariant that every id assigned so far
is below the current counter. -/
lemma runStep_inv (p : DrawState × List ℕ) (op : DrawOp)
    (h : ∀ a ∈ p.2, a < p.1.n_hitboxes_created) :
    ∀ a ∈ (runStep p op).2, a < (runStep p op).1.n_hitboxes_created := by
  have hn := drawStep_n p.1 op
  cases op with
  | down vx vy =>
      intro a ha
      simp only [runStep, List.mem_append, List.mem_singleton] at ha
      simp only [runStep, drawStep, onLeftDownDraw]
      rcases ha with ha | ha
      · have := h a ha
        omega
      · omega
  | up =>
      intro a ha
      simp only [runStep] at ha ⊢
      have := h a ha
      omega
  | delKey cell label =>
      intro a ha
      simp only [runStep] at ha ⊢
      have := h a ha
      omega

/-- The invariant holds along any run. -/
lemma runDraw_inv (ops : List DrawOp) :
    ∀ p : DrawState × List ℕ,
      (∀ a ∈ p.2, a < p.1.n_hitboxes_created) →
      ∀ a ∈ (ops.foldl runStep p).2, a < (ops.foldl runStep p).1.n_hitboxes_created := by
  induction ops with
  | nil =>
      intro p h
      simpa using h
  | cons op rest ih =>
      intro p h
      rw [List.foldl_cons]
      exact ih _ (runStep_inv p op h)

/-- C2: along every sequence of create/delete operations, the id a new create
assigns (`n_hitboxes_created` at that moment) is never one that was previously
assigned — deletions never make an id available again, because nothing ever
decreases the counter. -/
theorem hitboxId_never_reused (ops : List DrawOp) (vx vy : ℤ) :
    (runDrawTrace ops).1.n_hitboxes_created ∉ (runDrawTrace ops).2 ∧
    (runDrawTrace (ops ++ [DrawOp.down vx vy])).2 =
      (runDrawTrace ops).2 ++ [(runDrawTrace ops).1.n_hitboxes_created] := by
  constructor
  · intro hmem
    have hinv := runDraw_inv ops (initDrawState, []) (by intro a ha; simp at ha)
    simp only [runDrawTrace] at hmem
    exact lt_irrefl _ (hinv _ hmem)
  · rw [runDrawTrace, runDrawTrace, List.foldl_append]
    rfl

/-- C7 evaluation at the failing input: in DRAW mode with the origin sprite cell
selected, a click at `(10, 20)` followed by a release with no motion removes the
zero-sized rectangle from `destinations` (restoring its previous contents), but
the sprite's dict keeps the freshly inserted entry `{0: 0}` — now dangling — so
the sprite's hitbox collection is NOT unchanged from before the pointer-down. -/
theorem draw_zero_movement_eval :
    drawStep (drawStep initDrawState (DrawOp.down 10 20)) DrawOp.up =
      ⟨[], [((0, 0), [(0, 0)])], 1, none, ⟨0, 0, 150, 100⟩, ⟨0, 0⟩, 1⟩ ∧
    (drawStep (drawStep initDrawState (DrawOp.down 10 20)) DrawOp.up).destinations =
      initDrawState.destinations ∧
    (drawStep (drawStep initDrawState (DrawOp.down 10 20)) DrawOp.up).sprites ≠
      initDrawState.sprites := by
  have hdown : drawStep initDrawState (DrawOp.down 10 20) =
      ⟨[⟨10, 20, 0, 0⟩], [((0, 0), [(0, 0)])], 1, some 0, ⟨0, 0, 150, 100⟩, ⟨0, 0⟩, 1⟩ := by
    show onLeftDownDraw initDrawState 10 20 = _
    unfold onLeftDownDraw initDrawState
    simp [viewToDoc_one, dictInsert]
  rw [hdown]
  refine ⟨by decide, by decide, by decide⟩

/-- A persisted hitbox record `{x, y, w, h, label}`, as written by
`Canvas.SavePXT` and read back by `Canvas.LoadPXT` in
`src/pixie_trap/canvas.py` (the loader builds `Rect(x=..., y=..., w=..., h=...,
label=...)` values carrying a label). -/
structure Hitbox where
  x : ℤ
  y : ℤ
  w : ℤ
  h : ℤ
  label : String
deriving DecidableEq, Repr

/-- A sprite: a user-editable label and the dict from hitbox keys to hitbox
records (`Sprite(sprite_label)` with its `hitboxes` dict, as used by
`Canvas.LoadPXT`, `Canvas.SavePXT` and `Canvas.ExportJSON`). -/
structure Sprite where
  label : String
  hitboxes : List (String × Hitbox)
deriving DecidableEq, Repr

/-- The document-level canvas state used by the archive codec and the exporter:
`self.rows`, `self.cols`, `self.sprites` (dict from sprite cell key to sprite),
the zoom state `self.magnify` / `self.magnify_factor`, and
`self.select_position` (the currently selected cell's rectangle). -/
structure CanvasDoc where
  rows : ℤ
  cols : ℤ
  sprites : List ((ℤ × ℤ) × Sprite)
  magnify : ℤ
  magnify_factor : ℚ
  select_position : Rect
deriving DecidableEq, Repr

/-- One entry of `sprite_properties` in the PXT JSON: `{"sprite_key": [int,
int], "hitboxes": {...}}`. -/
structure PXTSprite where
  sprite_key : ℤ × ℤ
  hitboxes : List (String × Hitbox)
deriving DecidableEq, Repr

/-- The JSON payload of a PXT archive: `spritesheet_properties` (rows and cols)
plus `sprite_properties`, a dict keyed by sprite label. -/
structure PXTData where
  rows : ℤ
  cols : ℤ
  sprite_properties : List (String × PXTSprite)
deriving DecidableEq, Repr

/-- Embedding of `Canvas.SavePXT` from `src/pixie_trap/canvas.py` lines 525-633 (the data
construction, lines 583-604): write `rows` and `cols`, then for each sprite
assign `sprites[sprite.label] = {"sprite_key": key, "hitboxes": {...}}` — a dict
assignment, so a later sprite with the same label replaces an earlier one — and
fill the hitbox dict with each `{x, y, w, h, label}` record.  The zoom state
(`magnify`, `magnify_factor`, `sheet_pos`) is never read. -/
def savePXT (c : CanvasDoc) : PXTData :=
  { rows := c.rows
    cols := c.cols
    sprite_properties :=
      c.sprites.foldl
        (fun acc p => dictInsert acc p.2.label ⟨p.1, dictOf p.2.hitboxes⟩) [] }

/-- Embedding of `Canvas.LoadPXT` from `src/pixie_trap/canvas.py` lines 201-297: reset the
zoom state (`LoadImage` sets `magnify = 1`, `magnify_factor = 1`), read `rows`
and `cols`, then rebuild `self.sprites` keyed by `sprite_key` with a
`Sprite(sprite_label)` whose hitbox dict is filled from the records. -/
def loadPXT (d : PXTData) : CanvasDoc :=
  { rows := d.rows
    cols := d.cols
    sprites :=
      d.sprite_properties.foldl
        (fun acc p => dictInsert acc p.2.sprite_key ⟨p.1, dictOf p.2.hitboxes⟩) []
    magnify := 1
    magnify_factor := 1
    select_position := ⟨0, 0, 0, 0⟩ }

/-- Embedding of `Canvas.ExportJSON` from `src/pixie_trap/canvas.py` lines 85-131: a dict
comprehension mapping each sprite's label to the dict from hitbox label to
`{x, y, w, h}`, where `x` and `y` are the hitbox's document coordinates minus
`self.select_position.x` / `self.select_position.y` — the top-left corner of the
currently selected cell, the same offset for every sprite. -/
def exportJSON (c : CanvasDoc) : List (String × List (String × Rect)) :=
  c.sprites.foldl
    (fun acc p =>
      dictInsert acc p.2.label
        (p.2.hitboxes.foldl
          (fun hacc q =>
            dictInsert hacc q.2.label
              ⟨q.2.x - c.select_position.x, q.2.y - c.select_position.y, q.2.w, q.2.h⟩)
          []))
    []

/-- Inserting a fresh key into a dict appends the pair at the end. -/
lemma dictInsert_append {α β : Type} [DecidableEq α] (l : List (α × β)) (k : α) (v : β)
    (h : ∀ p ∈ l, p.1 ≠ k) : dictInsert l k v = l ++ [(k, v)] := by
  induction l with
  | nil => rfl
  | cons p rest ih =>
      rw [dictInsert]
      rw [if_neg (h p (List.mem_cons_self p rest))]
      rw [ih fun q hq => h q (List.mem_cons_of_mem p hq)]
      rfl

/-- Folding dict insertions over pairwise-distinct keys that are also fresh for
the accumulator appends the pairs in order. -/
lemma foldl_dictInsert {α β γ : Type} [DecidableEq α] (keyf : γ → α) (valf : γ → β) :
    ∀ (l : List γ) (acc : List (α × β)),
      (∀ p ∈ acc, ∀ g ∈ l, p.1 ≠ keyf g) → (l.map keyf).Nodup →
      l.foldl (fun a g => dictInsert a (keyf g) (valf g)) acc =
        acc ++ l.map fun g => (keyf g, valf g) := by
  intro l
  induction l with
  | nil =>
      intro acc _ _
      simp
  | cons g rest ih =>
      intro acc hfresh hnodup
      rw [List.foldl_cons]
      rw [dictInsert_append acc (keyf g) (valf g)
        fun p hp => hfresh p hp g (List.mem_cons_self g rest)]
      rw [List.map_cons, List.nodup_cons] at hnodup
      rw [ih (acc ++ [(keyf g, valf g)]) ?_ hnodup.2]
      · rw [List.map_cons, List.append_assoc]
        rfl
      · intro p hp r hr
        rcases List.mem_append.mp hp with hp | hp
        · exact hfresh p hp r (List.mem_cons_of_mem g hr)
        · have hpv : p = (keyf g, valf g) := by
            simpa using hp
          rw [hpv]
          intro hcontra
          apply hnodup.1
          have : keyf r ∈ List.map keyf rest := List.mem_map_of_mem keyf hr
          simpa [← hcontra] using this

/-- Rebuilding a dict whose keys are already pairwise distinct is the identity. -/
lemma dictOf_eq_self {α β : Type} [DecidableEq α] (l : List (α × β))
    (h : (l.map Prod.fst).Nodup) : dictOf l = l := by
  show l.foldl (fun acc p => dictInsert acc p.1 p.2) [] = l
  rw [foldl_dictInsert Prod.fst Prod.snd l [] (by simp) h]
  simp

/-- C1 (amended): when the sprite cell keys, the sprite labels, and each
sprite's hitbox keys are pairwise distinct, saving a document to PXT and
loading the archive back restores `rows`, `cols` and the entire sprite/hitbox
tree exactly, whatever the zoom state (`magnify`, `magnify_factor`) was at save
time — the codec never reads it. -/
theorem loadPXT_savePXT_roundtrip (c : CanvasDoc)
    (hkeys : (c.sprites.map Prod.fst).Nodup)
    (hlabels : (c.sprites.map fun p => p.2.label).Nodup)
    (hhb : ∀ p ∈ c.sprites, (p.2.hitboxes.map Prod.fst).Nodup) :
    (loadPXT (savePXT c)).rows = c.rows ∧
    (loadPXT (savePXT c)).cols = c.cols ∧
    (loadPXT (savePXT c)).sprites = c.sprites := by
  refine ⟨rfl, rfl, ?_⟩
  have hs1 : (savePXT c).sprite_properties =
      ([] : List (String × PXTSprite)) ++
        c.sprites.map fun p => (p.2.label, (⟨p.1, dictOf p.2.hitboxes⟩ : PXTSprite)) :=
    by
      exact foldl_dictInsert (fun p : (ℤ × ℤ) × Sprite => p.2.label)
        (fun p : (ℤ × ℤ) × Sprite => (⟨p.1, dictOf p.2.hitboxes⟩ : PXTSprite))
        c.sprites [] (by simp) hlabels
  have hnodup2 : ((savePXT c).sprite_properties.map fun q => q.2.sprite_key).Nodup := by
    rw [hs1]
    simp only [List.nil_append, List.map_map]
    exact hkeys
  have hs2 : (loadPXT (savePXT c)).sprites =
      ([] : List ((ℤ × ℤ) × Sprite)) ++
        (savePXT c).sprite_properties.map
          fun q => (q.2.sprite_key, (⟨q.1, dictOf q.2.hitboxes⟩ : Sprite)) :=
    by
      exact foldl_dictInsert (fun q : String × PXTSprite => q.2.sprite_key)
        (fun q : String × PXTSprite => (⟨q.1, dictOf q.2.hitboxes⟩ : Sprite))
        (savePXT c).sprite_properties [] (by simp) hnodup2
  rw [hs2, hs1]
  simp only [List.nil_append, List.map_map]
  have hid : ∀ p ∈ c.sprites,
      ((fun q : String × PXTSprite =>
          (q.2.sprite_key, (⟨q.1, dictOf q.2.hitboxes⟩ : Sprite))) ∘
        fun p : (ℤ × ℤ) × Sprite =>
          (p.2.label, (⟨p.1, dictOf p.2.hitboxes⟩ : PXTSprite))) p = p := by
    intro p hp
    obtain ⟨k, spr⟩ := p
    obtain ⟨lab, hbs⟩ := spr
    have hnb : (hbs.map Prod.fst).Nodup := hhb ⟨k, ⟨lab, hbs⟩⟩ hp
    show (k, (⟨lab, dictOf (dictOf hbs)⟩ : Sprite)) = (k, (⟨lab, hbs⟩ : Sprite))
    rw [dictOf_eq_self hbs hnb, dictOf_eq_self hbs hnb]
  rw [List.map_congr_left hid]
  exact List.map_id c.sprites

/-- A concrete document matching the spec's round-trip scenario: two sprites
with distinct labels, one holding two hitboxes and one holding none, saved at
zoom level `+2` (`magnify = 3`, factor `3`). -/
def witnessDoc : CanvasDoc :=
  ⟨3, 2,
    [((0, 0), ⟨"a", [("0", ⟨1, 2, 3, 4, "h1"⟩), ("1", ⟨5, 6, 7, 8, "h2"⟩)]⟩),
      ((150, 0), ⟨"b", []⟩)],
    3, 3, ⟨0, 0, 150, 100⟩⟩

/-- Witness for C1 on `witnessDoc`. -/
theorem loadPXT_savePXT_roundtrip_witness :
    (witnessDoc.sprites.map Prod.fst).Nodup ∧
    (witnessDoc.sprites.map fun p => p.2.label).Nodup ∧
    (∀ p ∈ witnessDoc.sprites, (p.2.hitboxes.map Prod.fst).Nodup) ∧
    ((loadPXT (savePXT witnessDoc)).rows = witnessDoc.rows ∧
      (loadPXT (savePXT witnessDoc)).cols = witnessDoc.cols ∧
      (loadPXT (savePXT witnessDoc)).sprites = witnessDoc.sprites) :=
  ⟨by decide, by decide, by decide,
    loadPXT_savePXT_roundtrip witnessDoc (by decide) (by decide) (by decide)⟩

/-- A document whose two sprites share the label `"a"`. -/
def dupLabelDoc : CanvasDoc :=
  ⟨2, 2,
    [((0, 0), ⟨"a", [("0", ⟨1, 2, 3, 4, "k"⟩)]⟩), ((1, 0), ⟨"a", []⟩)],
    1, 1, ⟨0, 0, 150, 100⟩⟩

/-- Counterexample for C1 as stated: `sprite_properties` is keyed by sprite
label, so with two sprites both labelled `"a"` the second one overwrites the
first in the archive and the reloaded document has lost the sprite with key
`(0, 0)` (and its hitbox): the set of sprite keys is not preserved. -/
theorem loadPXT_savePXT_counterexample :
    ((0, 0) : ℤ × ℤ) ∈ dupLabelDoc.sprites.map Prod.fst ∧
    ((0, 0) : ℤ × ℤ) ∉ (loadPXT (savePXT dupLabelDoc)).sprites.map Prod.fst ∧
    (loadPXT (savePXT dupLabelDoc)).sprites ≠ dupLabelDoc.sprites := by
  refine ⟨by decide, by decide, by decide⟩

/-- A two-sprite document: sprite `"A"` in the selected cell at the origin,
sprite `"B"` in the cell with top-left corner `(150, 0)` holding a hitbox at
document position `(160, 10)`. -/
def exportDoc : CanvasDoc :=
  ⟨1, 2,
    [((0, 0), ⟨"A", [("0", ⟨10, 20, 5, 5, "a"⟩)]⟩),
      ((150, 0), ⟨"B", [("1", ⟨160, 10, 5, 5, "b"⟩)]⟩)],
    1, 1, ⟨0, 0, 150, 100⟩⟩

/-- C6 evaluation at the failing input: the exporter subtracts the currently
selected cell's top-left corner (here `(0, 0)`) from every hitbox of every
sprite, so sprite `"B"`: hitbox `"b"` is exported at `x = 160`, not at
`x = 160 - 150 = 10` relative to its own cell's top-left corner `(150, 0)`. -/
theorem exportJSON_eval :
    exportJSON exportDoc =
      [("A", [("a", ⟨10, 20, 5, 5⟩)]), ("B", [("b", ⟨160, 10, 5, 5⟩)])] ∧
    (160 : ℤ) ≠ 160 - 150 := by
  refine ⟨by decide, by decide⟩

end PixieTrap